import Mathlib

/-!
Verification of the meshbotservus Meshtastic multi-client TCP proxy.

Shallow embedding of the Python sources:
  * `src/proxy/multi_client_proxy.py` — frame parser (`MeshtasticProtocolParser`),
    `/gem` interception (`GeminiIntegration.process_message`), response injection
    (`send_ai_response`), radio writer (`send_to_radio`), client broadcast
    (`broadcast_to_clients`), client data handling (`handle_client_data`).
  * `src/ai_handler.py` — length shaping (`_clean_whitespace`,
    `_trim_to_max_chars`, `_ensure_length_bounds`, `chat_respond`).

Bytes are modelled as `Nat`, byte strings as `List Nat`, Python `str` as
`List Char`.
-/

namespace Meshbot

/-- First byte of `MESHTASTIC_MAGIC = b'\x94\xc3'`. -/
def MAGIC0 : Nat := 0x94

/-- Second byte of `MESHTASTIC_MAGIC = b'\x94\xc3'`. -/
def MAGIC1 : Nat := 0xC3

/-- Header size, `HEADER_SIZE = 4` (2 bytes magic + 2 bytes length). -/
def HEADER_SIZE : Nat := 4

/-- The scan `for i in range(len(buffer) - 1): if buffer[i:i+2] == MAGIC`
from `MeshtasticProtocolParser.add_data` (lines 76–80): index of the first
occurrence of the two-byte magic sequence, if any. -/
def findMagic : List Nat → Option Nat
  | a :: b :: rest =>
    if a = MAGIC0 ∧ b = MAGIC1 then some 0
    else (findMagic (b :: rest)).map (· + 1)
  | _ => none

/-- Occurrence of the magic pair at index `i` (used to state garbage-freeness
hypotheses independently of `findMagic`). -/
def pairAt (l : List Nat) (i : Nat) : Prop :=
  l[i]? = some MAGIC0 ∧ l[i+1]? = some MAGIC1

instance (l : List Nat) (i : Nat) : Decidable (pairAt l i) := by
  unfold pairAt; infer_instance

/-- The `while len(self.buffer) >= HEADER_SIZE` loop of
`MeshtasticProtocolParser.add_data` (lines 72–107), written with explicit
fuel so that it is structurally recursive (each loop iteration strictly
shrinks the buffer, so `buf.length` fuel suffices; see `processBuffer`).
Returns the extracted `(raw_frame, payload)` pairs and the final buffer. -/
def processBufferAux : Nat → List Nat → List (List Nat × List Nat) × List Nat
  | 0, buf => ([], buf)
  | fuel + 1, buf =>
    if buf.length < HEADER_SIZE then ([], buf)
    else
      match buf with
      | b0 :: b1 :: b2 :: b3 :: _ =>
        if b0 = MAGIC0 ∧ b1 = MAGIC1 then
          -- length = struct.unpack('>H', buffer[2:4]); total = HEADER_SIZE + length
          let len := b2 * 256 + b3
          if buf.length < HEADER_SIZE + len then ([], buf)
          else
            let raw := buf.take (HEADER_SIZE + len)
            let payload := (buf.drop HEADER_SIZE).take len
            let r := processBufferAux fuel (buf.drop (HEADER_SIZE + len))
            ((raw, payload) :: r.1, r.2)
        else
          match findMagic buf with
          | none =>
            -- no magic: keep last byte when it is the first magic byte, else clear
            if buf.getLast? = some MAGIC0 then ([], buf.drop (buf.length - 1))
            else ([], [])
          | some m => processBufferAux fuel (buf.drop m)
      | _ => ([], buf)

/-- Run the `add_data` extraction loop on a buffer. -/
def processBuffer (buf : List Nat) : List (List Nat × List Nat) × List Nat :=
  processBufferAux buf.length buf

/-- Model of `MeshtasticProtocolParser.add_data`: extend the buffer with the new data,
then run the extraction loop.  The parser state is its buffer. -/
def addData (st : List Nat) (data : List Nat) :
    List (List Nat × List Nat) × List Nat :=
  processBuffer (st ++ data)

/-- 16-bit big-endian encoding, `struct.pack('>H', n)` (valid for
`n ≤ 65535`, where `n / 256 % 256 = n / 256`). -/
def pack16 (n : Nat) : List Nat := [n / 256 % 256, n % 256]

/-- Frame construction `MAGIC ‖ pack('>H', len(payload)) ‖ payload` as in
`_send_want_config` (lines 227–229) and `send_ai_response` (lines 376–378,
402–404). -/
def buildFrame (p : List Nat) : List Nat :=
  [MAGIC0, MAGIC1] ++ pack16 p.length ++ p

/-- Feeding a sequence of chunks to one parser, accumulating the extracted
frames in order; `st` is the parser's buffer. -/
def runChunks (st : List Nat) : List (List Nat) → List (List Nat × List Nat) × List Nat
  | [] => ([], st)
  | c :: cs =>
    let r := addData st c
    let r2 := runChunks r.2 cs
    (r.1 ++ r2.1, r2.2)

/-- Model of `MultiClientProxy.handle_client_data` (lines 414–432): a **fresh**
`MeshtasticProtocolParser()` is constructed for this one chunk, its frames
are extracted for interception, and the raw chunk is forwarded to the radio
(`send_to_radio(data)`).  Result: (frames seen by the interceptor, bytes
forwarded to the radio). -/
def handleClientData (data : List Nat) :
    List (List Nat × List Nat) × List Nat :=
  ((addData [] data).1, data)

section ParserBasicLemmas

theorem processBufferAux_nil (fuel : Nat) : processBufferAux fuel [] = ([], []) := by
  cases fuel <;> simp [processBufferAux, HEADER_SIZE]

theorem processBufferAux_short (fuel : Nat) (buf : List Nat)
    (h : buf.length < 4) : processBufferAux fuel buf = ([], buf) := by
  cases fuel with
  | zero => simp [processBufferAux]
  | succ n => simp [processBufferAux, HEADER_SIZE, h]

/-- The index returned by `findMagic` is an occurrence. -/
theorem findMagic_some_pairAt (l : List Nat) (m : Nat)
    (h : findMagic l = some m) : pairAt l m := by
  induction l generalizing m with
  | nil => simp [findMagic] at h
  | cons a t ih =>
    match t with
    | [] => simp [findMagic] at h
    | b :: rest =>
      by_cases hm : a = MAGIC0 ∧ b = MAGIC1
      · simp [findMagic, hm] at h
        subst h
        simp [pairAt, hm.1, hm.2]
      · simp [findMagic, hm] at h
        obtain ⟨k, hk, rfl⟩ := h
        have := ih k hk
        simpa [pairAt] using this

/-- The index returned by `findMagic` is the first occurrence. -/
theorem findMagic_some_min (l : List Nat) (m : Nat)
    (h : findMagic l = some m) : ∀ j, pairAt l j → m ≤ j := by
  induction l generalizing m with
  | nil => simp [findMagic] at h
  | cons a t ih =>
    match t with
    | [] => simp [findMagic] at h
    | b :: rest =>
      intro j hj
      by_cases hm : a = MAGIC0 ∧ b = MAGIC1
      · simp [findMagic, hm] at h; omega
      · simp [findMagic, hm] at h
        obtain ⟨k, hk, rfl⟩ := h
        match j with
        | 0 =>
          exfalso; apply hm
          simpa [pairAt] using hj
        | j + 1 =>
          have : pairAt (b :: rest) j := by simpa [pairAt] using hj
          have := ih k hk j this
          omega

/-- If there is no occurrence, `findMagic` returns `none`. -/
theorem findMagic_eq_none (l : List Nat)
    (h : ∀ i, ¬ pairAt l i) : findMagic l = none := by
  cases hf : findMagic l with
  | none => rfl
  | some m => exact absurd (findMagic_some_pairAt l m hf) (h m)

/-- Conversely, `findMagic l = none` means no occurrence. -/
theorem pairAt_of_findMagic_none (l : List Nat)
    (h : findMagic l = none) : ∀ i, ¬ pairAt l i := by
  induction l with
  | nil => intro i hi; simp [pairAt] at hi
  | cons a t ih =>
    match t with
    | [] =>
      intro i hi
      rcases hi with ⟨h0, h1⟩
      match i with
      | 0 => simp at h1
      | j + 1 => simp at h0
    | b :: rest =>
      by_cases hm : a = MAGIC0 ∧ b = MAGIC1
      · simp [findMagic, hm] at h
      · simp [findMagic, hm] at h
        intro i hi
        match i with
        | 0 => exact hm (by simpa [pairAt] using hi)
        | j + 1 => exact ih h j (by simpa [pairAt] using hi)

theorem findMagic_none_of_short (l : List Nat) (h : l.length ≤ 1) :
    findMagic l = none := by
  match l with
  | [] => rfl
  | [a] => rfl
  | a :: b :: t => simp at h

/-- An occurrence needs two bytes: `findMagic l = some m → m + 2 ≤ l.length`. -/
theorem findMagic_some_lt (l : List Nat) (m : Nat)
    (h : findMagic l = some m) : m + 2 ≤ l.length := by
  have hp := findMagic_some_pairAt l m h
  rcases hp with ⟨_, h1⟩
  have : m + 1 < l.length := by
    by_contra hc
    rw [List.getElem?_eq_none (by omega)] at h1
    exact absurd h1 (by simp)
  omega

/-- If the head pair is not magic, the first occurrence is positive. -/
theorem findMagic_pos (b0 b1 : Nat) (t : List Nat) (m : Nat)
    (hmag : ¬ (b0 = MAGIC0 ∧ b1 = MAGIC1))
    (h : findMagic (b0 :: b1 :: t) = some m) : 1 ≤ m := by
  simp [findMagic, hmag] at h
  omega

/-- One-step unfolding: complete frame at the head of the buffer. -/
theorem processBufferAux_complete (fuel b2 b3 : Nat) (rest : List Nat)
    (hlen : b2 * 256 + b3 ≤ rest.length) :
    processBufferAux (fuel + 1) (MAGIC0 :: MAGIC1 :: b2 :: b3 :: rest) =
      (((MAGIC0 :: MAGIC1 :: b2 :: b3 :: rest).take (4 + (b2 * 256 + b3)),
        rest.take (b2 * 256 + b3)) ::
          (processBufferAux fuel (rest.drop (b2 * 256 + b3))).1,
       (processBufferAux fuel (rest.drop (b2 * 256 + b3))).2) := by
  have h4 : ¬ ((MAGIC0 :: MAGIC1 :: b2 :: b3 :: rest).length < HEADER_SIZE) := by
    simp [HEADER_SIZE]
  have hlt : ¬ ((MAGIC0 :: MAGIC1 :: b2 :: b3 :: rest).length <
      HEADER_SIZE + (b2 * 256 + b3)) := by
    simp [HEADER_SIZE]; omega
  have hd : List.drop (4 + (b2 * 256 + b3)) (MAGIC0 :: MAGIC1 :: b2 :: b3 :: rest) =
      List.drop (b2 * 256 + b3) rest := by
    have h1 : 4 + (b2 * 256 + b3) = (b2 * 256 + b3) + 1 + 1 + 1 + 1 := by omega
    rw [h1, List.drop_succ_cons, List.drop_succ_cons, List.drop_succ_cons,
      List.drop_succ_cons]
  simp only [processBufferAux, h4, if_false, hlt, and_self, if_true, ite_false]
  simp only [HEADER_SIZE]
  rw [hd]
  simp

/-- One-step unfolding: magic at the head but the frame is incomplete. -/
theorem processBufferAux_incomplete (fuel b2 b3 : Nat) (rest : List Nat)
    (hlen : rest.length < b2 * 256 + b3) :
    processBufferAux (fuel + 1) (MAGIC0 :: MAGIC1 :: b2 :: b3 :: rest) =
      ([], MAGIC0 :: MAGIC1 :: b2 :: b3 :: rest) := by
  have h4 : ¬ ((MAGIC0 :: MAGIC1 :: b2 :: b3 :: rest).length < HEADER_SIZE) := by
    simp [HEADER_SIZE]
  have hlt : (MAGIC0 :: MAGIC1 :: b2 :: b3 :: rest).length <
      HEADER_SIZE + (b2 * 256 + b3) := by
    simp [HEADER_SIZE]; omega
  simp only [processBufferAux, h4, if_false, hlt, and_self, if_true, ite_true]

/-- One-step unfolding: no magic at the head, skip to the first occurrence. -/
theorem processBufferAux_skip (fuel b0 b1 b2 b3 : Nat) (t : List Nat) (m : Nat)
    (hmag : ¬ (b0 = MAGIC0 ∧ b1 = MAGIC1))
    (hm : findMagic (b0 :: b1 :: b2 :: b3 :: t) = some m) :
    processBufferAux (fuel + 1) (b0 :: b1 :: b2 :: b3 :: t) =
      processBufferAux fuel ((b0 :: b1 :: b2 :: b3 :: t).drop m) := by
  have h4 : ¬ ((b0 :: b1 :: b2 :: b3 :: t).length < HEADER_SIZE) := by
    simp [HEADER_SIZE]
  simp only [processBufferAux, h4, if_false, hmag, ite_false, hm]

/-- One-step unfolding: no magic anywhere in the buffer. -/
theorem processBufferAux_garbage (fuel b0 b1 b2 b3 : Nat) (t : List Nat)
    (hm : findMagic (b0 :: b1 :: b2 :: b3 :: t) = none) :
    processBufferAux (fuel + 1) (b0 :: b1 :: b2 :: b3 :: t) =
      ([], if (b0 :: b1 :: b2 :: b3 :: t).getLast? = some MAGIC0 then
        (b0 :: b1 :: b2 :: b3 :: t).drop ((b0 :: b1 :: b2 :: b3 :: t).length - 1)
      else []) := by
  have hmag : ¬ (b0 = MAGIC0 ∧ b1 = MAGIC1) := by
    intro hc
    simp [findMagic, hc] at hm
  have h4 : ¬ ((b0 :: b1 :: b2 :: b3 :: t).length < HEADER_SIZE) := by
    simp [HEADER_SIZE]
  simp only [processBufferAux, h4, if_false, hmag, ite_false, hm]
  split <;> rfl

/-- The result of `processBufferAux` does not depend on the fuel, provided the
fuel is at least the buffer length. -/
theorem processBufferAux_fuel (f1 : Nat) :
    ∀ (buf : List Nat) (f2 : Nat), buf.length ≤ f1 → buf.length ≤ f2 →
      processBufferAux f1 buf = processBufferAux f2 buf := by
  induction f1 with
  | zero =>
    intro buf f2 h1 _
    have hb : buf = [] := List.eq_nil_of_length_eq_zero (by omega)
    subst hb
    simp [processBufferAux_nil]
  | succ n ih =>
    intro buf f2 h1 h2
    match f2 with
    | 0 =>
      have hb : buf = [] := List.eq_nil_of_length_eq_zero (by omega)
      subst hb
      simp [processBufferAux_nil]
    | k + 1 =>
      by_cases h4 : buf.length < 4
      · rw [processBufferAux_short _ _ h4, processBufferAux_short _ _ h4]
      · match buf with
        | [] => simp at h4
        | [a] => simp at h4
        | [a, b] => simp at h4
        | [a, b, c] => simp at h4
        | b0 :: b1 :: b2 :: b3 :: t =>
          by_cases hmag : b0 = MAGIC0 ∧ b1 = MAGIC1
          · obtain ⟨rfl, rfl⟩ := hmag
            by_cases hlen : b2 * 256 + b3 ≤ t.length
            · rw [processBufferAux_complete _ _ _ _ hlen,
                processBufferAux_complete _ _ _ _ hlen]
              have hd : (t.drop (b2 * 256 + b3)).length ≤ n := by
                simp at h1 ⊢; omega
              have hd2 : (t.drop (b2 * 256 + b3)).length ≤ k := by
                simp at h2 ⊢; omega
              rw [ih _ _ hd hd2]
            · push_neg at hlen
              rw [processBufferAux_incomplete _ _ _ _ hlen,
                processBufferAux_incomplete _ _ _ _ hlen]
          · cases hm : findMagic (b0 :: b1 :: b2 :: b3 :: t) with
            | none =>
              rw [processBufferAux_garbage _ _ _ _ _ _ hm,
                processBufferAux_garbage _ _ _ _ _ _ hm]
            | some m =>
              rw [processBufferAux_skip _ _ _ _ _ _ _ hmag hm,
                processBufferAux_skip _ _ _ _ _ _ _ hmag hm]
              have hpos : 1 ≤ m :=
                findMagic_pos _ _ (b2 :: b3 :: t) _ hmag hm
              have hd : ((b0 :: b1 :: b2 :: b3 :: t).drop m).length ≤ n := by
                simp at h1 ⊢; omega
              have hd2 : ((b0 :: b1 :: b2 :: b3 :: t).drop m).length ≤ k := by
                simp at h2 ⊢; omega
              exact ih _ _ hd hd2

theorem processBuffer_nil : processBuffer [] = ([], []) := by
  simp [processBuffer, processBufferAux_nil]

theorem processBuffer_short (buf : List Nat) (h : buf.length < 4) :
    processBuffer buf = ([], buf) :=
  processBufferAux_short _ _ h

/-- Unfolding of `processBuffer`: complete frame at the head. -/
theorem processBuffer_complete (b2 b3 : Nat) (rest : List Nat)
    (hlen : b2 * 256 + b3 ≤ rest.length) :
    processBuffer (MAGIC0 :: MAGIC1 :: b2 :: b3 :: rest) =
      (((MAGIC0 :: MAGIC1 :: b2 :: b3 :: rest).take (4 + (b2 * 256 + b3)),
        rest.take (b2 * 256 + b3)) ::
          (processBuffer (rest.drop (b2 * 256 + b3))).1,
       (processBuffer (rest.drop (b2 * 256 + b3))).2) := by
  unfold processBuffer
  have hL : (MAGIC0 :: MAGIC1 :: b2 :: b3 :: rest).length = rest.length + 4 := by
    simp
  rw [hL, processBufferAux_complete _ _ _ _ hlen,
    processBufferAux_fuel (rest.length + 3) (rest.drop (b2 * 256 + b3))
      (rest.drop (b2 * 256 + b3)).length (by simp; omega) (le_refl _)]

/-- Unfolding of `processBuffer`: magic at the head, incomplete frame. -/
theorem processBuffer_incomplete (b2 b3 : Nat) (rest : List Nat)
    (hlen : rest.length < b2 * 256 + b3) :
    processBuffer (MAGIC0 :: MAGIC1 :: b2 :: b3 :: rest) =
      ([], MAGIC0 :: MAGIC1 :: b2 :: b3 :: rest) := by
  unfold processBuffer
  have hL : (MAGIC0 :: MAGIC1 :: b2 :: b3 :: rest).length = rest.length + 4 := by
    simp
  rw [hL, processBufferAux_incomplete _ _ _ _ hlen]

/-- Unfolding of `processBuffer`: skip to the first magic occurrence. -/
theorem processBuffer_skip (b0 b1 b2 b3 : Nat) (t : List Nat) (m : Nat)
    (hmag : ¬ (b0 = MAGIC0 ∧ b1 = MAGIC1))
    (hm : findMagic (b0 :: b1 :: b2 :: b3 :: t) = some m) :
    processBuffer (b0 :: b1 :: b2 :: b3 :: t) =
      processBuffer ((b0 :: b1 :: b2 :: b3 :: t).drop m) := by
  unfold processBuffer
  have hL : (b0 :: b1 :: b2 :: b3 :: t).length = t.length + 4 := by simp
  rw [hL, processBufferAux_skip _ _ _ _ _ _ _ hmag hm]
  have hpos : 1 ≤ m := findMagic_pos _ _ (b2 :: b3 :: t) _ hmag hm
  rw [processBufferAux_fuel (t.length + 3) _ ((b0 :: b1 :: b2 :: b3 :: t).drop m).length
    (by simp; omega) (le_refl _)]

/-- Dropping all but the last element yields the singleton last element. -/
theorem drop_length_sub_one (l : List Nat) (a : Nat)
    (h : l.getLast? = some a) : l.drop (l.length - 1) = [a] := by
  induction l with
  | nil => simp at h
  | cons x t ih =>
    match t with
    | [] => simp at h; subst h; rfl
    | y :: t' =>
      have h' : (y :: t').getLast? = some a := by
        rw [List.getLast?_cons_cons] at h
        exact h
      have ihh := ih h'
      have hL : (x :: y :: t').length - 1 = t'.length + 1 := by simp
      rw [hL, List.drop_succ_cons]
      have h2 : (y :: t').length - 1 = t'.length := by simp
      rw [h2] at ihh
      exact ihh

/-- Unfolding of `processBuffer`: no magic anywhere in the buffer. -/
theorem processBuffer_garbage (b0 b1 b2 b3 : Nat) (t : List Nat)
    (hm : findMagic (b0 :: b1 :: b2 :: b3 :: t) = none) :
    processBuffer (b0 :: b1 :: b2 :: b3 :: t) =
      ([], if (b0 :: b1 :: b2 :: b3 :: t).getLast? = some MAGIC0 then [MAGIC0]
        else []) := by
  unfold processBuffer
  have hL : (b0 :: b1 :: b2 :: b3 :: t).length = t.length + 4 := by simp
  rw [hL, processBufferAux_garbage _ _ _ _ _ _ hm]
  by_cases hlast : (b0 :: b1 :: b2 :: b3 :: t).getLast? = some MAGIC0
  · rw [if_pos hlast, if_pos hlast, drop_length_sub_one _ _ hlast]
  · rw [if_neg hlast, if_neg hlast]

/-- Variant of `processBuffer_skip` keyed on `pairAt` instead of the explicit
cons shape. -/
theorem processBuffer_skip' (buf : List Nat) (m : Nat) (h4 : 4 ≤ buf.length)
    (hfront : ¬ pairAt buf 0) (hm : findMagic buf = some m) :
    processBuffer buf = processBuffer (buf.drop m) := by
  match buf with
  | [] => simp at h4
  | [a] => simp at h4
  | [a, b] => simp at h4
  | [a, b, c] => simp at h4
  | b0 :: b1 :: b2 :: b3 :: t =>
    have hmag : ¬ (b0 = MAGIC0 ∧ b1 = MAGIC1) := by
      intro hc
      exact hfront (by simp [pairAt, hc.1, hc.2])
    exact processBuffer_skip _ _ _ _ _ _ hmag hm

/-- Variant of `processBuffer_garbage` keyed on the length instead of the
explicit cons shape. -/
theorem processBuffer_garbage' (buf : List Nat) (h4 : 4 ≤ buf.length)
    (hm : findMagic buf = none) :
    processBuffer buf =
      ([], if buf.getLast? = some MAGIC0 then [MAGIC0] else []) := by
  match buf with
  | [] => simp at h4
  | [a] => simp at h4
  | [a, b] => simp at h4
  | [a, b, c] => simp at h4
  | b0 :: b1 :: b2 :: b3 :: t => exact processBuffer_garbage _ _ _ _ _ hm

end ParserBasicLemmas

section FrameLemmas

theorem buildFrame_eq_cons (p : List Nat) :
    buildFrame p =
      MAGIC0 :: MAGIC1 :: (p.length / 256 % 256) :: (p.length % 256) :: p := rfl

theorem buildFrame_length (p : List Nat) :
    (buildFrame p).length = 4 + p.length := by
  simp [buildFrame, pack16]
  omega

theorem len_decode (L : Nat) (h : L ≤ 65535) :
    L / 256 % 256 * 256 + L % 256 = L := by
  have hd := Nat.div_add_mod L 256
  have h1 : L / 256 < 256 := Nat.div_lt_of_lt_mul (by omega)
  rw [Nat.mod_eq_of_lt h1]
  omega

/-- The extraction loop on exactly one built frame yields that frame and
empties the buffer. -/
theorem processBuffer_build (p : List Nat) (h : p.length ≤ 65535) :
    processBuffer (buildFrame p) = ([(buildFrame p, p)], []) := by
  rw [buildFrame_eq_cons]
  have hlen : p.length / 256 % 256 * 256 + p.length % 256 ≤ p.length :=
    le_of_eq (len_decode p.length h)
  rw [processBuffer_complete _ _ _ hlen, len_decode p.length h]
  have ht : List.take (4 + p.length)
      (MAGIC0 :: MAGIC1 :: p.length / 256 % 256 :: p.length % 256 :: p) =
      MAGIC0 :: MAGIC1 :: p.length / 256 % 256 :: p.length % 256 :: p := by
    apply List.take_of_length_le
    simp
    omega
  rw [ht, List.take_length, List.drop_length, processBuffer_nil]

/-- The bounded no-occurrence hypothesis extends to all indices. -/
theorem pairAt_unbounded (l : List Nat) (h : ∀ i < l.length, ¬ pairAt l i) :
    ∀ i, ¬ pairAt l i := by
  intro i hi
  by_cases hlt : i < l.length
  · exact h i hlt hi
  · rcases hi with ⟨h0, _⟩
    rw [List.getElem?_eq_none (by omega)] at h0
    exact absurd h0 (by simp)

/-- The first magic occurrence in `garbage ‖ magic ‖ t` is right after the
garbage (no occurrence can straddle the boundary since `MAGIC0 ≠ MAGIC1`). -/
theorem findMagic_append_magic (g : List Nat) (hg : findMagic g = none)
    (t : List Nat) :
    findMagic (g ++ MAGIC0 :: MAGIC1 :: t) = some g.length := by
  induction g with
  | nil => simp [findMagic]
  | cons a g' ih =>
    match g' with
    | [] =>
      have hne : ¬ (a = MAGIC0 ∧ MAGIC0 = MAGIC1) := by
        intro hc
        exact absurd hc.2 (by decide)
      simp [findMagic, hne]
    | b :: g'' =>
      have hmag : ¬ (a = MAGIC0 ∧ b = MAGIC1) := by
        intro hc
        simp [findMagic, hc] at hg
      have hg' : findMagic (b :: g'') = none := by
        simp [findMagic, hmag] at hg
        exact hg
      have := ih hg'
      show findMagic (a :: (b :: g'' ++ MAGIC0 :: MAGIC1 :: t)) = _
      have hstep : findMagic (a :: (b :: g'' ++ MAGIC0 :: MAGIC1 :: t)) =
          (findMagic (b :: g'' ++ MAGIC0 :: MAGIC1 :: t)).map (· + 1) := by
        simp [findMagic, hmag]
      rw [hstep, this]
      simp

end FrameLemmas

section RoundTripClaims

/-- C1: Frame codec round-trip.  For every payload `p` with `|p| ≤ 65535`,
feeding `build(p) = 0x94 0xC3 ‖ be16(|p|) ‖ p` to a fresh parser's
`add_data` in one call yields exactly the pair `(build p, p)` and leaves the
parse buffer empty. -/
theorem frame_codec_roundtrip (p : List Nat) (h : p.length ≤ 65535) :
    addData [] (buildFrame p) = ([(buildFrame p, p)], []) := by
  unfold addData
  rw [List.nil_append]
  exact processBuffer_build p h

theorem frame_codec_roundtrip_witness :
    ([0x07, 0x2A].length ≤ 65535) ∧
      addData [] (buildFrame [0x07, 0x2A]) =
        ([(buildFrame [0x07, 0x2A], [0x07, 0x2A])], []) :=
  ⟨by decide, frame_codec_roundtrip [0x07, 0x2A] (by decide)⟩

/-- C2: Frame codec resynchronization.  For any `garbage` containing no
occurrence of `0x94 0xC3` and any payload `p` with `|p| ≤ 65535`, a single
`add_data` call on `garbage ‖ build(p)` with a fresh parser yields exactly
one frame, whose payload is `p` (all garbage bytes are discarded). -/
theorem frame_codec_resync (g p : List Nat)
    (hg : ∀ i < g.length, ¬ pairAt g i) (hp : p.length ≤ 65535) :
    addData [] (g ++ buildFrame p) = ([(buildFrame p, p)], []) := by
  unfold addData
  rw [List.nil_append]
  match hgnil : g with
  | [] =>
    rw [List.nil_append]
    exact processBuffer_build p hp
  | a :: g' =>
    have hnone : findMagic (a :: g') = none :=
      findMagic_eq_none _ (pairAt_unbounded _ hg)
    have hm : findMagic ((a :: g') ++ buildFrame p) = some (a :: g').length := by
      rw [buildFrame_eq_cons]
      exact findMagic_append_magic _ hnone _
    have h4 : 4 ≤ ((a :: g') ++ buildFrame p).length := by
      rw [List.length_append, buildFrame_length]
      omega
    have hfront : ¬ pairAt ((a :: g') ++ buildFrame p) 0 := by
      intro hc
      have := findMagic_some_min _ _ hm 0 hc
      simp at this
    rw [processBuffer_skip' _ _ h4 hfront hm, List.drop_left]
    exact processBuffer_build p hp

theorem frame_codec_resync_witness :
    (∀ i < [0x00, 0xFF].length, ¬ pairAt [0x00, 0xFF] i) ∧
      ([0x5A].length ≤ 65535) ∧
      addData [] ([0x00, 0xFF] ++ buildFrame [0x5A]) =
        ([(buildFrame [0x5A], [0x5A])], []) :=
  ⟨by decide, by decide, frame_codec_resync [0x00, 0xFF] [0x5A] (by decide) (by decide)⟩

end RoundTripClaims

section Incrementality

/-- The residue the parser keeps from an all-garbage buffer: the last byte
when it is the first magic byte (it may be the start of a split magic pair),
nothing otherwise (lines 82–88). -/
def keepTail (g : List Nat) : List Nat :=
  if g.getLast? = some MAGIC0 then [MAGIC0] else []

theorem keepTail_length_le (g : List Nat) : (keepTail g).length ≤ 1 := by
  unfold keepTail
  split <;> simp

theorem keepTail_cons_cons (a b : Nat) (g : List Nat) :
    keepTail (a :: b :: g) = keepTail (b :: g) := by
  unfold keepTail
  rw [List.getLast?_cons_cons]

/-- A magic occurrence in `x` stays the first occurrence in `x ++ d`. -/
theorem findMagic_append_left (x d : List Nat) (m : Nat)
    (h : findMagic x = some m) : findMagic (x ++ d) = some m := by
  induction x generalizing m with
  | nil => simp [findMagic] at h
  | cons a t ih =>
    match t with
    | [] => simp [findMagic] at h
    | b :: r =>
      by_cases hm : a = MAGIC0 ∧ b = MAGIC1
      · simp [findMagic, hm] at h
        subst h
        show findMagic (a :: b :: (r ++ d)) = some 0
        simp [findMagic, hm]
      · simp [findMagic, hm] at h
        obtain ⟨k, hk, rfl⟩ := h
        have hr : findMagic (b :: (r ++ d)) = some k := by
          simpa using ih k hk
        show findMagic (a :: b :: (r ++ d)) = some (k + 1)
        have hstep : findMagic (a :: b :: (r ++ d)) =
            (findMagic (b :: (r ++ d))).map (· + 1) := by
          simp [findMagic, hm]
        rw [hstep, hr]
        rfl

/-- For a buffer with no magic occurrence, occurrences of magic in
`g ++ l` are occurrences in `keepTail g ++ l`, shifted by the length of the
discarded garbage. -/
theorem findMagic_append_none (g : List Nat) (hg : findMagic g = none)
    (l : List Nat) :
    findMagic (g ++ l) =
      (findMagic (keepTail g ++ l)).map (· + (g.length - (keepTail g).length)) := by
  induction g with
  | nil =>
    simp [keepTail]
  | cons a g' ih =>
    match g' with
    | [] =>
      by_cases ha : a = MAGIC0
      · subst ha
        have hk : keepTail [MAGIC0] = [MAGIC0] := by simp [keepTail]
        rw [hk]
        simp
      · have hk : keepTail [a] = [] := by simp [keepTail, ha]
        rw [hk]
        match l with
        | [] => simp [findMagic]
        | b :: r =>
          have hm : ¬ (a = MAGIC0 ∧ b = MAGIC1) := fun hc => ha hc.1
          show findMagic (a :: b :: r) = _
          have hstep : findMagic (a :: b :: r) =
              (findMagic (b :: r)).map (· + 1) := by
            simp [findMagic, hm]
          rw [hstep]
          simp
    | b :: g'' =>
      have hmag : ¬ (a = MAGIC0 ∧ b = MAGIC1) := by
        intro hc
        simp [findMagic, hc] at hg
      have hg' : findMagic (b :: g'') = none := by
        simp [findMagic, hmag] at hg
        exact hg
      have ihh := ih hg'
      rw [keepTail_cons_cons]
      show findMagic (a :: ((b :: g'') ++ l)) = _
      have hstep : findMagic (a :: ((b :: g'') ++ l)) =
          (findMagic ((b :: g'') ++ l)).map (· + 1) := by
        match hl : (b :: g'') ++ l with
        | [] => simp at hl
        | c :: r =>
          have hc : c = b := by
            simp at hl
            exact hl.1.symm
          subst hc
          simp [findMagic, hmag]
      rw [hstep, ihh]
      have hlen : (keepTail (b :: g'')).length ≤ 1 := keepTail_length_le _
      cases findMagic (keepTail (b :: g'') ++ l) with
      | none => simp
      | some k =>
        simp only [Option.map_some']
        congr 1
        simp
        omega

/-- Dropping garbage in front of the buffer does not change the extracted
frames: the parser behaves on `g ++ l` as it does on `keepTail g ++ l`. -/
theorem processBuffer_drop_garbage (g l : List Nat) (h4 : 4 ≤ g.length)
    (hg : findMagic g = none) :
    (processBuffer (g ++ l)).1 = (processBuffer (keepTail g ++ l)).1 := by
  have hoff : (keepTail g).length ≤ 1 := keepTail_length_le g
  cases hfm : findMagic (keepTail g ++ l) with
  | none =>
    have hgl : findMagic (g ++ l) = none := by
      rw [findMagic_append_none g hg l, hfm]
      rfl
    have h4' : 4 ≤ (g ++ l).length := by
      rw [List.length_append]
      omega
    rw [processBuffer_garbage' _ h4' hgl]
    by_cases hshort : (keepTail g ++ l).length < 4
    · rw [processBuffer_short _ hshort]
    · rw [processBuffer_garbage' _ (by omega) hfm]
  | some p =>
    have hgl : findMagic (g ++ l) =
        some (p + (g.length - (keepTail g).length)) := by
      rw [findMagic_append_none g hg l, hfm]
      rfl
    have h4' : 4 ≤ (g ++ l).length := by
      rw [List.length_append]
      omega
    have hfront : ¬ pairAt (g ++ l) 0 := by
      intro hc
      have := findMagic_some_min _ _ hgl 0 hc
      omega
    rw [processBuffer_skip' _ _ h4' hfront hgl]
    have hdrop : (g ++ l).drop (p + (g.length - (keepTail g).length)) =
        (keepTail g ++ l).drop p := by
      by_cases hlast : g.getLast? = some MAGIC0
      · have hkt : keepTail g = [MAGIC0] := by simp [keepTail, hlast]
        have hsplit : g.dropLast ++ [MAGIC0] = g :=
          List.dropLast_append_getLast? MAGIC0 hlast
        have hlen : g.dropLast.length = g.length - 1 := by
          simp [List.length_dropLast]
        calc (g ++ l).drop (p + (g.length - (keepTail g).length))
            = (g.dropLast ++ ([MAGIC0] ++ l)).drop (g.dropLast.length + p) := by
              rw [← List.append_assoc, hsplit, hlen, hkt]
              congr 1
              have hg1 : 1 ≤ g.length := by omega
              simp
              omega
          _ = ([MAGIC0] ++ l).drop p := List.drop_append p
          _ = (keepTail g ++ l).drop p := by rw [hkt]
      · have hkt : keepTail g = [] := by simp [keepTail, hlast]
        calc (g ++ l).drop (p + (g.length - (keepTail g).length))
            = (g ++ l).drop (g.length + p) := by
              rw [hkt]
              congr 1
              simp
              omega
          _ = l.drop p := List.drop_append p
          _ = (keepTail g ++ l).drop p := by rw [hkt]; rfl
    rw [hdrop]
    by_cases hshort : (keepTail g ++ l).length < 4
    · rw [processBuffer_short _ (by
        have := List.length_drop p (keepTail g ++ l)
        omega)]
      rw [processBuffer_short _ hshort]
    · match hp : p with
      | 0 =>
        simp
      | q + 1 =>
        have hfront2 : ¬ pairAt (keepTail g ++ l) 0 := by
          intro hc
          have := findMagic_some_min _ _ hfm 0 hc
          omega
        rw [processBuffer_skip' _ _ (by omega) hfront2 hfm]

/-- An occurrence of `pairAt` at the head of an append only involves the first list when it
has at least two elements. -/
theorem pairAt_append_zero (x d : List Nat) (h2 : 2 ≤ x.length)
    (h : pairAt (x ++ d) 0) : pairAt x 0 := by
  rcases h with ⟨h0, h1⟩
  refine ⟨?_, ?_⟩
  · rwa [List.getElem?_append, if_pos (by omega)] at h0
  · rwa [List.getElem?_append, if_pos (by omega)] at h1

/-- Key composition property of the extraction loop: running it on `x ++ d`
yields the frames of `x` followed by the frames obtained by running it on
the residual buffer of `x` extended with `d`. -/
theorem processBuffer_split_aux (n : Nat) :
    ∀ (x : List Nat), x.length ≤ n → ∀ (d : List Nat),
      (processBuffer (x ++ d)).1 =
        (processBuffer x).1 ++ (processBuffer ((processBuffer x).2 ++ d)).1 := by
  induction n with
  | zero =>
    intro x hx d
    have hxnil : x = [] := List.eq_nil_of_length_eq_zero (by omega)
    subst hxnil
    simp [processBuffer_nil]
  | succ k ih =>
    intro x hx d
    by_cases h4 : x.length < 4
    · rw [processBuffer_short x h4]
      simp
    · match x with
      | [] => simp at h4
      | [a] => simp at h4
      | [a, b] => simp at h4
      | [a, b, c] => simp at h4
      | b0 :: b1 :: b2 :: b3 :: t =>
        by_cases hmag : b0 = MAGIC0 ∧ b1 = MAGIC1
        · obtain ⟨rfl, rfl⟩ := hmag
          by_cases hlen : b2 * 256 + b3 ≤ t.length
          · have hlen' : b2 * 256 + b3 ≤ (t ++ d).length := by
              rw [List.length_append]
              omega
            have happ : (MAGIC0 :: MAGIC1 :: b2 :: b3 :: t) ++ d =
                MAGIC0 :: MAGIC1 :: b2 :: b3 :: (t ++ d) := by simp
            rw [happ, processBuffer_complete _ _ _ hlen',
              processBuffer_complete _ _ _ hlen]
            have htake1 : List.take (4 + (b2 * 256 + b3))
                (MAGIC0 :: MAGIC1 :: b2 :: b3 :: (t ++ d)) =
                List.take (4 + (b2 * 256 + b3))
                  (MAGIC0 :: MAGIC1 :: b2 :: b3 :: t) := by
              rw [← happ]
              exact List.take_append_of_le_length (by simp; omega)
            have htake2 : List.take (b2 * 256 + b3) (t ++ d) =
                List.take (b2 * 256 + b3) t :=
              List.take_append_of_le_length hlen
            have hdrop : List.drop (b2 * 256 + b3) (t ++ d) =
                List.drop (b2 * 256 + b3) t ++ d :=
              List.drop_append_of_le_length hlen
            rw [htake1, htake2, hdrop]
            have hrec := ih (t.drop (b2 * 256 + b3)) (by simp at hx ⊢; omega) d
            rw [hrec]
            simp
          · push_neg at hlen
            rw [processBuffer_incomplete _ _ _ hlen]
            simp
        · cases hf : findMagic (b0 :: b1 :: b2 :: b3 :: t) with
          | some m =>
            have hpos : 1 ≤ m := findMagic_pos _ _ _ _ hmag hf
            have hm2 : m + 2 ≤ (b0 :: b1 :: b2 :: b3 :: t).length :=
              findMagic_some_lt _ _ hf
            have hxd : findMagic ((b0 :: b1 :: b2 :: b3 :: t) ++ d) = some m :=
              findMagic_append_left _ _ _ hf
            have hfront : ¬ pairAt (b0 :: b1 :: b2 :: b3 :: t) 0 := by
              intro hc
              apply hmag
              simpa [pairAt] using hc
            have hfront' : ¬ pairAt ((b0 :: b1 :: b2 :: b3 :: t) ++ d) 0 :=
              fun hc => hfront (pairAt_append_zero _ _ (by simp) hc)
            rw [processBuffer_skip' _ _ (by simp) hfront hf,
              processBuffer_skip' _ _
                (by simp only [List.length_append, List.length_cons]; omega)
                hfront' hxd,
              List.drop_append_of_le_length (by omega)]
            exact ih _ (by simp at hx ⊢; omega) d
          | none =>
            rw [processBuffer_garbage' _ (by simp) hf]
            have hkt : (if (b0 :: b1 :: b2 :: b3 :: t).getLast? = some MAGIC0
                then [MAGIC0] else []) = keepTail (b0 :: b1 :: b2 :: b3 :: t) := rfl
            rw [hkt]
            have := processBuffer_drop_garbage (b0 :: b1 :: b2 :: b3 :: t) d
              (by simp) hf
            rw [this]
            simp

/-- Composition property, stated without the fuel bound. -/
theorem processBuffer_split (x d : List Nat) :
    (processBuffer (x ++ d)).1 =
      (processBuffer x).1 ++ (processBuffer ((processBuffer x).2 ++ d)).1 :=
  processBuffer_split_aux x.length x (le_refl _) d

/-- Running a chunk list from the residual state of `x` is the same as a
single run on `x` with all chunks appended. -/
theorem runChunks_spec (cs : List (List Nat)) :
    ∀ (x : List Nat),
      (processBuffer x).1 ++ (runChunks (processBuffer x).2 cs).1 =
        (processBuffer (x ++ cs.flatten)).1 := by
  induction cs with
  | nil =>
    intro x
    simp [runChunks]
  | cons c cs ih =>
    intro x
    show (processBuffer x).1 ++
        ((addData (processBuffer x).2 c).1 ++
          (runChunks (addData (processBuffer x).2 c).2 cs).1) =
      (processBuffer (x ++ (c :: cs).flatten)).1
    unfold addData
    rw [ih ((processBuffer x).2 ++ c)]
    rw [List.flatten_cons]
    have hkey := processBuffer_split x (c ++ cs.flatten)
    rw [hkey, List.append_assoc]

end Incrementality

section IncrementalityClaim

/-- C3: Frame codec incrementality.  Feeding any partition of a byte
sequence chunk-by-chunk to one parser produces, concatenated in order,
exactly the frames of a single `add_data` call on the whole sequence with a
fresh parser. -/
theorem frame_codec_incrementality (cs : List (List Nat)) :
    (runChunks [] cs).1 = (addData [] cs.flatten).1 := by
  have h := runChunks_spec cs []
  rw [processBuffer_nil] at h
  simpa [addData] using h

end IncrementalityClaim

section PerClientBuffer

/-- A buffer with no magic occurrence yields no frames. -/
theorem processBuffer_frames_nil (l : List Nat) (h : findMagic l = none) :
    (processBuffer l).1 = [] := by
  by_cases h4 : l.length < 4
  · rw [processBuffer_short _ h4]
  · rw [processBuffer_garbage' _ (by omega) h]

/-- A proper prefix of a built frame yields no frames. -/
theorem processBuffer_prefix_nil (p : List Nat) (k : Nat)
    (hp : p.length ≤ 65535) (hk : k < (buildFrame p).length) :
    (processBuffer ((buildFrame p).take k)).1 = [] := by
  by_cases h4 : k < 4
  · rw [processBuffer_short _ (by
      have := List.length_take k (buildFrame p)
      omega)]
  · push_neg at h4
    obtain ⟨k', rfl⟩ : ∃ k', k = k' + 4 := ⟨k - 4, by omega⟩
    rw [buildFrame_eq_cons]
    have htake : List.take (k' + 4)
        (MAGIC0 :: MAGIC1 :: p.length / 256 % 256 :: p.length % 256 :: p) =
        MAGIC0 :: MAGIC1 :: p.length / 256 % 256 :: p.length % 256 ::
          p.take k' := by
      have h1 : k' + 4 = (k' + 3) + 1 := by omega
      have h2 : k' + 3 = (k' + 2) + 1 := by omega
      have h3 : k' + 2 = (k' + 1) + 1 := by omega
      rw [h1, List.take_succ_cons, h2, List.take_succ_cons, h3,
        List.take_succ_cons, List.take_succ_cons]
    rw [htake]
    have hlt : (p.take k').length < p.length / 256 % 256 * 256 + p.length % 256 := by
      rw [len_decode p.length hp, List.length_take]
      rw [buildFrame_length] at hk
      omega
    rw [processBuffer_incomplete _ _ _ hlt]

/-- C4 counterexample: `handle_client_data` constructs a **fresh** parser for
every chunk, so a frame split across two consecutive chunks is never
extracted for interception by either call (though a single persistent parser
fed the same two chunks would extract it).  This refutes the claimed
persistence of a per-client parse buffer. -/
theorem handle_client_data_split_frame_lost :
    buildFrame [0x41] = [0x94, 0xC3] ++ [0x00, 0x01, 0x41] ∧
    (handleClientData [0x94, 0xC3]).1 = [] ∧
    (handleClientData [0x00, 0x01, 0x41]).1 = [] ∧
    ¬ ((buildFrame [0x41], [0x41]) ∈
        (handleClientData [0x94, 0xC3]).1 ++ (handleClientData [0x00, 0x01, 0x41]).1) ∧
    (runChunks [] [[0x94, 0xC3], [0x00, 0x01, 0x41]]).1 =
      [(buildFrame [0x41], [0x41])] := by
  decide

/-- C4 (amended): each `handle_client_data` call parses its chunk with a
fresh parser, so when a built frame is split in two at any position (with no
spurious magic pair in the tail), neither call extracts any frame — the
split frame is lost for interception — while the raw chunk bytes are still
forwarded verbatim to the radio. -/
theorem handle_client_data_fresh_codec (p : List Nat) (k : Nat)
    (hp : p.length ≤ 65535) (hk1 : 1 ≤ k) (hk2 : k < (buildFrame p).length)
    (htail : ∀ i < ((buildFrame p).drop k).length,
      ¬ pairAt ((buildFrame p).drop k) i) :
    (handleClientData ((buildFrame p).take k)).1 = [] ∧
    (handleClientData ((buildFrame p).drop k)).1 = [] ∧
    (handleClientData ((buildFrame p).take k)).2 = (buildFrame p).take k ∧
    (handleClientData ((buildFrame p).drop k)).2 = (buildFrame p).drop k := by
  refine ⟨?_, ?_, rfl, rfl⟩
  · show (addData [] ((buildFrame p).take k)).1 = []
    unfold addData
    rw [List.nil_append]
    exact processBuffer_prefix_nil p k hp hk2
  · show (addData [] ((buildFrame p).drop k)).1 = []
    unfold addData
    rw [List.nil_append]
    exact processBuffer_frames_nil _
      (findMagic_eq_none _ (pairAt_unbounded _ htail))

theorem handle_client_data_fresh_codec_witness :
    ([0x41].length ≤ 65535 ∧ 1 ≤ 2 ∧ 2 < (buildFrame [0x41]).length ∧
      (∀ i < ((buildFrame [0x41]).drop 2).length,
        ¬ pairAt ((buildFrame [0x41]).drop 2) i)) ∧
    ((handleClientData ((buildFrame [0x41]).take 2)).1 = [] ∧
      (handleClientData ((buildFrame [0x41]).drop 2)).1 = [] ∧
      (handleClientData ((buildFrame [0x41]).take 2)).2 = (buildFrame [0x41]).take 2 ∧
      (handleClientData ((buildFrame [0x41]).drop 2)).2 = (buildFrame [0x41]).drop 2) :=
  ⟨⟨by decide, by decide, by decide, by decide⟩,
    handle_client_data_fresh_codec [0x41] 2 (by decide) (by decide) (by decide)
      (by decide)⟩

end PerClientBuffer

section TextUtils

/-- ASCII whitespace as recognized by Python's `str.strip` / `str.split`
(`' '`, `'\t'`, `'\n'`, `'\r'`, `'\x0b'`, `'\x0c'`; the Unicode space
characters Python also strips do not occur in the strings handled here). -/
def isPySpace (c : Char) : Bool :=
  c = ' ' || c = '\t' || c = '\n' || c = '\r' || c = '\x0b' || c = '\x0c'

/-- Python `str.lstrip()`. -/
def pyLStrip (s : List Char) : List Char := s.dropWhile isPySpace

/-- Python `str.rstrip()`. -/
def pyRStrip (s : List Char) : List Char :=
  (s.reverse.dropWhile isPySpace).reverse

/-- Python `str.strip()`. -/
def pyStrip (s : List Char) : List Char := pyRStrip (pyLStrip s)

theorem pyRStrip_length_le (s : List Char) : (pyRStrip s).length ≤ s.length := by
  unfold pyRStrip
  rw [List.length_reverse]
  calc (s.reverse.dropWhile isPySpace).length ≤ s.reverse.length :=
        (List.dropWhile_sublist isPySpace).length_le
    _ = s.length := List.length_reverse s

theorem pyLStrip_length_le (s : List Char) : (pyLStrip s).length ≤ s.length :=
  (List.dropWhile_sublist isPySpace).length_le

theorem pyStrip_length_le (s : List Char) : (pyStrip s).length ≤ s.length :=
  le_trans (pyRStrip_length_le _) (pyLStrip_length_le _)

/-- Python `str.split()` with no separator: maximal runs of non-whitespace
(`acc` accumulates the current word, reversed). -/
def splitWSAux : List Char → List Char → List (List Char)
  | [], acc => if acc = [] then [] else [acc.reverse]
  | c :: rest, acc =>
    if isPySpace c then
      if acc = [] then splitWSAux rest []
      else acc.reverse :: splitWSAux rest []
    else splitWSAux rest (c :: acc)

def splitWS (s : List Char) : List (List Char) := splitWSAux s []

/-- Model of `AIHandler._clean_whitespace`: `" ".join(s.split())`. -/
def cleanWhitespace (s : List Char) : List Char :=
  List.intercalate [' '] (splitWS s)

end TextUtils

section GemCommand

/-- Line 139 of `multi_client_proxy.py`. -/
def gemNotAvailableMsg : List Char :=
  "[Gemini AI not available - GEMINI_API_KEY not set]".data

/-- Line 143 of `multi_client_proxy.py`. -/
def gemEmptyPromptMsg : List Char :=
  "[Please provide a question after /gem]".data

/-- Model of `GeminiIntegration.process_message` (lines 131–152).  `aiHandler` is
`None` when no `GEMINI_API_KEY` is configured; otherwise it is the
generator, returning either a reply (`Except.ok`) or a raised exception
(`Except.error`).  The second component records the prompts actually sent
to the generator (the call on line 147). -/
def processMessage
    (aiHandler : Option (List Char → Except (List Char) (List Char)))
    (senderId message : List Char) : Option (List Char) × List (List Char) :=
  if ¬ ("/gem".data.isPrefixOf message) then (none, [])
  else
    match aiHandler with
    | none => (some gemNotAvailableMsg, [])
    | some handler =>
      let prompt := pyStrip (message.drop 4)
      if prompt = [] then (some gemEmptyPromptMsg, [])
      else
        match handler prompt with
        | Except.ok r => (some r, [prompt])
        | Except.error e =>
          (some ("[AI Error: ".data ++ e.take 100 ++ "]".data), [prompt])

theorem isPrefixOf_append_self (l m : List Char) :
    l.isPrefixOf (l ++ m) = true := by
  induction l with
  | nil => simp [List.isPrefixOf]
  | cons a t ih => simp [List.isPrefixOf, ih]

theorem pyStrip_all_space (ws : List Char)
    (h : ∀ c ∈ ws, isPySpace c = true) : pyStrip ws = [] := by
  unfold pyStrip pyLStrip
  rw [List.dropWhile_eq_nil_iff.mpr h]
  rfl

/-- C6: empty `/gem` prompt.  With a generator configured, a message that is
`"/gem"` followed only by whitespace produces the fixed diagnostic
`"[Please provide a question after /gem]"` and no generator call is made. -/
theorem gem_empty_prompt
    (handler : List Char → Except (List Char) (List Char))
    (senderId ws : List Char) (h : ∀ c ∈ ws, isPySpace c = true) :
    processMessage (some handler) senderId ("/gem".data ++ ws) =
      (some gemEmptyPromptMsg, []) := by
  unfold processMessage
  rw [if_neg (by
    rw [isPrefixOf_append_self]
    intro hc
    exact hc rfl)]
  have hdrop : ("/gem".data ++ ws).drop 4 = ws := by
    have h4 : ("/gem".data).length = 4 := rfl
    rw [← h4, List.drop_left]
  rw [hdrop, pyStrip_all_space ws h]
  rfl

theorem gem_empty_prompt_witness :
    (∀ c ∈ "   ".data, isPySpace c = true) ∧
      processMessage (some (fun p => Except.ok p)) "!00000001".data
        ("/gem".data ++ "   ".data) = (some gemEmptyPromptMsg, []) :=
  ⟨by decide,
    gem_empty_prompt (fun p => Except.ok p) "!00000001".data "   ".data (by decide)⟩

/-- C10: diagnostic precedence.  With no generator configured,
`process_message` answers the availability diagnostic for **every** message
starting with `"/gem"` — including an empty remainder — and in particular
never the empty-prompt diagnostic: the availability check precedes the
empty-prompt check. -/
theorem gem_unavailable_precedence (senderId message : List Char)
    (h : "/gem".data.isPrefixOf message = true) :
    processMessage none senderId message = (some gemNotAvailableMsg, []) ∧
      (processMessage none senderId message).1 ≠ some gemEmptyPromptMsg := by
  have hmain : processMessage none senderId message =
      (some gemNotAvailableMsg, []) := by
    unfold processMessage
    rw [if_neg (by
      rw [h]
      intro hc
      exact hc rfl)]
  refine ⟨hmain, ?_⟩
  rw [hmain]
  intro hc
  simp [gemNotAvailableMsg, gemEmptyPromptMsg] at hc

theorem gem_unavailable_precedence_witness :
    ("/gem".data.isPrefixOf "/gem".data = true) ∧
      (processMessage none "!00000001".data "/gem".data =
          (some gemNotAvailableMsg, []) ∧
        (processMessage none "!00000001".data "/gem".data).1 ≠
          some gemEmptyPromptMsg) :=
  ⟨by decide, gem_unavailable_precedence "!00000001".data "/gem".data (by decide)⟩

end GemCommand

section LengthShaping

/-- The constant `self.max_chars = 600` (`AIHandler.__init__`). -/
def MAX_CHARS : Nat := 600

/-- The constant `self.min_chars = 200` (`AIHandler.__init__`). -/
def MIN_CHARS : Nat := 200

/-- The boundary patterns tried by `_trim_to_max_chars`, in order:
`[". ", "! ", "? ", "\n", " - "]`. -/
def boundaryPatterns : List (List Char) :=
  [". ".data, "! ".data, "? ".data, "\n".data, " - ".data]

/-- Python `s.rfind(p, 0, endB)`: the largest index `i` such that the
occurrence `s[i : i + len(p)] = p` lies entirely within `s[0:endB]`
(`none` for Python's `-1`). -/
def rfindIn (s p : List Char) (endB : Nat) : Option Nat :=
  ((List.range (endB + 1)).filter
    (fun i => decide (i + p.length ≤ endB) &&
      (List.take p.length (List.drop i s) == p))).max?

/-- The `candidates` list built by `_trim_to_max_chars` (lines 141–145):
for each pattern, the last occurrence before the cutoff contributes
`idx + len(p.strip())`. -/
def trimCandidates (t : List Char) : List Nat :=
  boundaryPatterns.filterMap
    (fun p => (rfindIn t p MAX_CHARS).map (fun idx => idx + (pyStrip p).length))

/-- Model of `AIHandler._trim_to_max_chars` (lines 136–148). -/
def trimToMaxChars (s : List Char) : List Char :=
  let t := pyStrip s
  if t.length ≤ MAX_CHARS then t
  else
    match (trimCandidates t).max? with
    | some m => pyStrip (t.take m)
    | none => pyRStrip (t.take MAX_CHARS)

/-- Model of `AIHandler._ensure_length_bounds` (lines 150–167).  `expander` models
the outcome of `chat.send_message(expand_prompt)` followed by
`_extract_text`: `none` when the call raises (in the current code it always
does, because `chat_respond` passes the plain `user_id` string as `chat`),
`some resp` when it returns a response with extracted text `resp`. -/
def ensureLengthBounds (expander : Option (List Char))
    (firstTryText : List Char) : List Char :=
  let text := cleanWhitespace firstTryText
  let text2 :=
    if text.length < MIN_CHARS then
      match expander with
      | none => text
      | some resp =>
        let expanded := cleanWhitespace (pyStrip resp)
        if expanded = [] then text else expanded
    else text
  if MAX_CHARS < text2.length then trimToMaxChars text2 else text2

/-- Line 195 of `ai_handler.py`. -/
def aiFallbackMsg : List Char :=
  "I’m having trouble responding right now. Please try again.".data

/-- Model of `AIHandler.chat_respond` (lines 169–195): the retry loop over
`max_retries` attempts.  Each attempt is `none` when
`generate_content`/`_extract_text` raises, `some resp` when it returns text
`resp`; `raw` is the stripped text, an empty `raw` retries, the final
failing attempt raises (`Except.error`), and an exhausted loop returns the
fixed fallback message. -/
def chatRespond (expander : Option (List Char)) :
    List (Option (List Char)) → Except (List Char) (List Char)
  | [] => Except.ok aiFallbackMsg
  | attempt :: rest =>
    match attempt with
    | some resp =>
      let raw := pyStrip resp
      if raw = [] then chatRespond expander rest
      else Except.ok (ensureLengthBounds expander raw)
    | none =>
      match rest with
      | [] => Except.error "AI generation failed".data
      | _ :: _ => chatRespond expander rest

/-- A boundary cut position of the text `t`, in the sense of the spec: one
of the patterns occurs entirely within the first `MAX_CHARS` characters,
and the cut lies right after the stripped pattern. -/
def isBoundaryCut (t : List Char) (b : Nat) : Prop :=
  ∃ p ∈ boundaryPatterns, ∃ i, i + p.length ≤ MAX_CHARS ∧
    List.take p.length (List.drop i t) = p ∧ b = i + (pyStrip p).length

theorem natMax?_mem {l : List Nat} {m : Nat} (h : l.max? = some m) : m ∈ l :=
  List.max?_mem (fun a b => max_choice a b) h

theorem natMax?_ub {l : List Nat} {m : Nat} (h : l.max? = some m) :
    ∀ b ∈ l, b ≤ m := fun b hb =>
  ((List.max?_le_iff (fun _ _ _ => max_le_iff) h).1 (le_refl m)) b hb

theorem natMax?_of_mem {l : List Nat} {b : Nat} (hb : b ∈ l) :
    ∃ m, l.max? = some m := by
  cases hm : l.max? with
  | some m => exact ⟨m, rfl⟩
  | none =>
    rw [List.max?_eq_none_iff] at hm
    subst hm
    simp at hb

theorem rfindIn_some (s p : List Char) (endB i : Nat)
    (h : rfindIn s p endB = some i) :
    i + p.length ≤ endB ∧ List.take p.length (List.drop i s) = p ∧
      ∀ j, j + p.length ≤ endB → List.take p.length (List.drop j s) = p →
        j ≤ i := by
  have hmem := natMax?_mem h
  rw [List.mem_filter] at hmem
  obtain ⟨-, hcond⟩ := hmem
  rw [Bool.and_eq_true, decide_eq_true_eq, beq_iff_eq] at hcond
  refine ⟨hcond.1, hcond.2, ?_⟩
  intro j hj hmatch
  apply natMax?_ub h
  rw [List.mem_filter]
  refine ⟨List.mem_range.mpr (by omega), ?_⟩
  rw [Bool.and_eq_true, decide_eq_true_eq, beq_iff_eq]
  exact ⟨hj, hmatch⟩

theorem rfindIn_none (s p : List Char) (endB : Nat)
    (h : rfindIn s p endB = none) :
    ∀ j, j + p.length ≤ endB → List.take p.length (List.drop j s) ≠ p := by
  intro j hj hmatch
  unfold rfindIn at h
  rw [List.max?_eq_none_iff, List.filter_eq_nil_iff] at h
  apply h j (List.mem_range.mpr (by omega))
  rw [Bool.and_eq_true, decide_eq_true_eq, beq_iff_eq]
  exact ⟨hj, hmatch⟩

theorem mem_trimCandidates_isCut (t : List Char) (b : Nat)
    (h : b ∈ trimCandidates t) : isBoundaryCut t b := by
  unfold trimCandidates at h
  rw [List.mem_filterMap] at h
  obtain ⟨p, hp, hmap⟩ := h
  rw [Option.map_eq_some'] at hmap
  obtain ⟨i, hfind, rfl⟩ := hmap
  obtain ⟨h1, h2, -⟩ := rfindIn_some t p MAX_CHARS i hfind
  exact ⟨p, hp, i, h1, h2, rfl⟩

theorem isCut_le_trimCandidates (t : List Char) (B : Nat)
    (h : isBoundaryCut t B) : ∃ b ∈ trimCandidates t, B ≤ b := by
  obtain ⟨p, hp, i, hle, hmatch, rfl⟩ := h
  have hifilter : i ∈ (List.range (MAX_CHARS + 1)).filter
      (fun j => decide (j + p.length ≤ MAX_CHARS) &&
        (List.take p.length (List.drop j t) == p)) := by
    rw [List.mem_filter]
    refine ⟨List.mem_range.mpr (by omega), ?_⟩
    rw [Bool.and_eq_true, decide_eq_true_eq, beq_iff_eq]
    exact ⟨hle, hmatch⟩
  obtain ⟨m, hm⟩ := natMax?_of_mem hifilter
  have hfind : rfindIn t p MAX_CHARS = some m := hm
  have hile : i ≤ m := natMax?_ub hm i hifilter
  refine ⟨m + (pyStrip p).length, ?_, by omega⟩
  unfold trimCandidates
  rw [List.mem_filterMap]
  exact ⟨p, hp, by rw [hfind]; rfl⟩

/-- Every boundary cut lands strictly before the hard cutoff. -/
theorem isBoundaryCut_le (t : List Char) (b : Nat)
    (h : isBoundaryCut t b) : b ≤ 599 := by
  obtain ⟨p, hp, i, hle, -, rfl⟩ := h
  have hstrip : ∀ q ∈ boundaryPatterns, (pyStrip q).length + 1 ≤ q.length := by
    decide
  have := hstrip p hp
  have hmax : MAX_CHARS = 600 := rfl
  omega

/-- The function `_trim_to_max_chars` always returns at most 600 characters. -/
theorem trimToMaxChars_length_le (s : List Char) :
    (trimToMaxChars s).length ≤ 600 := by
  unfold trimToMaxChars
  by_cases hlen : (pyStrip s).length ≤ MAX_CHARS
  · rw [if_pos hlen]
    exact hlen
  · rw [if_neg hlen]
    cases hmax : (trimCandidates (pyStrip s)).max? with
    | some m =>
      have hcut := mem_trimCandidates_isCut _ _ (natMax?_mem hmax)
      have hm : m ≤ 599 := isBoundaryCut_le _ _ hcut
      calc (pyStrip ((pyStrip s).take m)).length
          ≤ ((pyStrip s).take m).length := pyStrip_length_le _
        _ ≤ m := by rw [List.length_take]; omega
        _ ≤ 600 := by omega
    | none =>
      calc (pyRStrip ((pyStrip s).take MAX_CHARS)).length
          ≤ ((pyStrip s).take MAX_CHARS).length := pyRStrip_length_le _
        _ ≤ 600 := by rw [List.length_take]; simp [MAX_CHARS]

theorem lengthCheck_le (x : List Char) :
    (if MAX_CHARS < x.length then trimToMaxChars x else x).length ≤ 600 := by
  split
  · exact trimToMaxChars_length_le x
  · next h =>
    simp [MAX_CHARS] at h
    exact h

/-- The function `_ensure_length_bounds` always returns at most 600 characters. -/
theorem ensureLengthBounds_length_le (expander : Option (List Char))
    (t : List Char) : (ensureLengthBounds expander t).length ≤ 600 := by
  unfold ensureLengthBounds
  exact lengthCheck_le _

/-- Every reply `chat_respond` returns has at most 600 characters. -/
theorem chatRespond_ok_le (expander : Option (List Char))
    (attempts : List (Option (List Char))) (out : List Char)
    (h : chatRespond expander attempts = Except.ok out) :
    out.length ≤ 600 := by
  induction attempts with
  | nil =>
    simp only [chatRespond] at h
    cases h
    decide
  | cons attempt rest ih =>
    match attempt with
    | some resp =>
      simp only [chatRespond] at h
      split at h
      · exact ih h
      · cases h
        exact ensureLengthBounds_length_le _ _
    | none =>
      match rest with
      | [] => simp [chatRespond] at h
      | r :: rs =>
        simp only [chatRespond] at h
        exact ih h

/-- When the stripped text is over the limit and no boundary pattern occurs
within it, `_trim_to_max_chars` hard-cuts at 600. -/
theorem trimToMaxChars_no_cut (s : List Char)
    (hlong : 600 < (pyStrip s).length)
    (hnone : ∀ b, ¬ isBoundaryCut (pyStrip s) b) :
    trimToMaxChars s = pyRStrip ((pyStrip s).take 600) := by
  have hcand : trimCandidates (pyStrip s) = [] := by
    rw [List.eq_nil_iff_forall_not_mem]
    intro b hb
    exact hnone b (mem_trimCandidates_isCut _ _ hb)
  unfold trimToMaxChars
  rw [if_neg (by simp [MAX_CHARS]; omega), hcand]
  rfl

/-- When the stripped text is over the limit, `_trim_to_max_chars` cuts at
the latest boundary. -/
theorem trimToMaxChars_max_cut (s : List Char)
    (hlong : 600 < (pyStrip s).length) (B : Nat)
    (hB : isBoundaryCut (pyStrip s) B)
    (hmax : ∀ b, isBoundaryCut (pyStrip s) b → b ≤ B) :
    trimToMaxChars s = pyStrip ((pyStrip s).take B) := by
  obtain ⟨b', hb'mem, hBb'⟩ := isCut_le_trimCandidates _ _ hB
  obtain ⟨m, hm⟩ := natMax?_of_mem hb'mem
  have hmB : m = B := by
    have h1 : m ≤ B := hmax m (mem_trimCandidates_isCut _ _ (natMax?_mem hm))
    have h2 : b' ≤ m := natMax?_ub hm b' hb'mem
    omega
  unfold trimToMaxChars
  rw [if_neg (by simp [MAX_CHARS]; omega), hm, hmB]

end LengthShaping

section LengthShapingClaim

/-- C7 counterexample: the original claim asserts that when the cleaned text
is shorter than 200 and the expansion step succeeds, the final length lies
in [200, 600].  A successful expansion producing a short text refutes the
lower bound: the code installs the expanded text without re-checking the
200-character minimum. -/
theorem length_shaping_counterexample :
    (cleanWhitespace "hi".data).length < 200 ∧
    ensureLengthBounds (some "ok".data) "hi".data = "ok".data ∧
    ¬ (200 ≤ (ensureLengthBounds (some "ok".data) "hi".data).length) := by
  refine ⟨by decide, by decide, by decide⟩

/-- C7 (amended): every reply `chat_respond` returns has length at most 600
(whitespace is normalized before the length checks); when the stripped text
exceeds 600 characters, `_trim_to_max_chars` cuts it at the latest boundary
among `". "`, `"! "`, `"? "`, newline, `" - "` lying wholly within the
first 600 characters, and hard-cuts at 600 when no such boundary exists;
and when the cleaned text is shorter than 200 and the expansion step
succeeds, the final length lies in [0, 600] only — the 200 lower bound is
not enforced after expansion. -/
theorem length_shaping :
    (∀ expander attempts out,
      chatRespond expander attempts = Except.ok out → out.length ≤ 600) ∧
    (∀ s, 600 < (pyStrip s).length →
      ((∀ b, ¬ isBoundaryCut (pyStrip s) b) →
        trimToMaxChars s = pyRStrip ((pyStrip s).take 600)) ∧
      (∀ B, isBoundaryCut (pyStrip s) B →
        (∀ b, isBoundaryCut (pyStrip s) b → b ≤ B) →
        trimToMaxChars s = pyStrip ((pyStrip s).take B))) ∧
    (∀ resp raw, (cleanWhitespace raw).length < 200 →
      (ensureLengthBounds (some resp) raw).length ≤ 600) := by
  refine ⟨chatRespond_ok_le, ?_, ?_⟩
  · intro s hlong
    exact ⟨trimToMaxChars_no_cut s hlong,
      fun B hB hmax => trimToMaxChars_max_cut s hlong B hB hmax⟩
  · intro resp raw _
    exact ensureLengthBounds_length_le _ _

theorem pyLStrip_cons_of_not_space (c : Char) (l : List Char)
    (h : isPySpace c = false) : pyLStrip (c :: l) = c :: l := by
  simp [pyLStrip, List.dropWhile_cons, h]

theorem pyRStrip_concat_of_not_space (l : List Char) (c : Char)
    (h : isPySpace c = false) : pyRStrip (l ++ [c]) = l ++ [c] := by
  simp [pyRStrip, List.reverse_append, List.dropWhile_cons, h]

/-- A concrete 610-character text with a sentence boundary `". "` at
position 598, used to exercise the over-limit trimming path. -/
def longSample : List Char :=
  'a' :: (List.replicate 597 'a' ++ (". ".data ++ (List.replicate 9 'b' ++ ['b'])))

theorem longSample_eq_replicate_append :
    longSample =
      List.replicate 598 'a' ++ (". ".data ++ (List.replicate 9 'b' ++ ['b'])) := by
  have h0 : (598 : Nat) = 597 + 1 := by norm_num
  have h1 : List.replicate 598 'a' = 'a' :: List.replicate 597 'a' := by
    rw [h0, List.replicate_succ]
  rw [h1, List.cons_append]
  rfl

theorem longSample_concat :
    longSample =
      ('a' :: (List.replicate 597 'a' ++ ". ".data ++ List.replicate 9 'b')) ++
        ['b'] := by
  rw [List.cons_append,
    List.append_assoc (List.replicate 597 'a' ++ ". ".data)
      (List.replicate 9 'b') ['b'],
    List.append_assoc (List.replicate 597 'a') (". ".data)
      (List.replicate 9 'b' ++ ['b'])]
  rfl

theorem longSample_strip : pyStrip longSample = longSample := by
  unfold pyStrip
  have hl : pyLStrip longSample = longSample :=
    pyLStrip_cons_of_not_space _ _ (by decide)
  rw [hl, longSample_concat]
  exact pyRStrip_concat_of_not_space _ _ (by decide)

theorem longSample_length : longSample.length = 610 := by
  rw [longSample_eq_replicate_append, List.length_append, List.length_replicate]
  rfl

theorem longSample_cut : isBoundaryCut (pyStrip longSample) 599 := by
  rw [longSample_strip]
  refine ⟨". ".data, by decide, 598, by decide, ?_, by decide⟩
  have hdrop : List.drop 598 longSample =
      ". ".data ++ (List.replicate 9 'b' ++ ['b']) := by
    rw [longSample_eq_replicate_append]
    have h2 := List.drop_left (List.replicate 598 'a')
      (". ".data ++ (List.replicate 9 'b' ++ ['b']))
    rw [List.length_replicate] at h2
    exact h2
  rw [hdrop]
  decide

theorem length_shaping_witness :
    (chatRespond none [some "hello".data] =
        Except.ok (ensureLengthBounds none "hello".data) ∧
      (ensureLengthBounds none "hello".data).length ≤ 600) ∧
    (600 < (pyStrip longSample).length ∧
      isBoundaryCut (pyStrip longSample) 599 ∧
      trimToMaxChars longSample = pyStrip ((pyStrip longSample).take 599)) ∧
    ((cleanWhitespace "hi".data).length < 200 ∧
      (ensureLengthBounds (some "ok".data) "hi".data).length ≤ 600) := by
  have hlong : 600 < (pyStrip longSample).length := by
    rw [longSample_strip, longSample_length]
    norm_num
  have heq : chatRespond none [some "hello".data] =
      Except.ok (ensureLengthBounds none "hello".data) := by rfl
  refine ⟨⟨heq, length_shaping.1 none [some "hello".data] _ heq⟩,
    ⟨hlong, longSample_cut, ?_⟩, ⟨by decide, ?_⟩⟩
  · exact (length_shaping.2.1 longSample hlong).2 599 longSample_cut
      (fun b hb => isBoundaryCut_le _ b hb)
  · exact length_shaping.2.2 "ok".data "hi".data (by decide)

end LengthShapingClaim

section ResponseInjection

/-- The constant `meshtastic.portnums_pb2.TEXT_MESSAGE_APP` (the text-application record
kind; its concrete numeric value is irrelevant to the claims). -/
def TEXT_MESSAGE_APP : Nat := 1

/-- The `decoded` sub-message of a `MeshPacket` (`portnum`, `payload`). -/
structure DataMsg where
  portnum : Nat
  payload : List Nat
deriving DecidableEq

/-- Model of `mesh_pb2.MeshPacket`, restricted to the fields `send_ai_response`
populates. -/
structure MeshPacket where
  id : Nat
  /-- the protobuf field `to` (`to` is a reserved token in Lean) -/
  dest : Nat
  channel : Nat
  want_ack : Bool
  hop_limit : Nat
  decoded : DataMsg
deriving DecidableEq

/-- Model of `mesh_pb2.ToRadio` carrying a packet (the upstream envelope). -/
structure ToRadioMsg where
  packet : MeshPacket
deriving DecidableEq

/-- Model of `mesh_pb2.FromRadio` carrying a packet (the downstream envelope). -/
structure FromRadioMsg where
  packet : MeshPacket
deriving DecidableEq

/-- Model of `MultiClientProxy.send_ai_response` (lines 345–407).  `pid` is the value
returned by `_generate_packet_id()` (`random.randint(1, 0xFFFFFFFF)`);
`channelIndex` is `self.channel_index`; `utf8Enc` models
`str.encode('utf-8')`; `serToRadio` / `serFromRadio` model protobuf
`SerializeToString` for the two envelope kinds.  Returns the inner packet,
the frame written to the radio and the frame broadcast to the clients. -/
def sendAIResponse (pid channelIndex : Nat) (channel : Option Nat)
    (utf8Enc : List Char → List Nat)
    (serToRadio : ToRadioMsg → List Nat)
    (serFromRadio : FromRadioMsg → List Nat)
    (text : List Char) : MeshPacket × List Nat × List Nat :=
  let trimmed := text.take 200
  let useChannel := match channel with | some c => c | none => channelIndex
  let meshPacket : MeshPacket :=
    { id := pid, dest := 0xFFFFFFFF, channel := useChannel, want_ack := true,
      hop_limit := 7,
      decoded := { portnum := TEXT_MESSAGE_APP, payload := utf8Enc trimmed } }
  let payload := serToRadio { packet := meshPacket }
  let frame := buildFrame payload
  let clientPayload := serFromRadio { packet := meshPacket }
  let clientFrame := buildFrame clientPayload
  (meshPacket, frame, clientFrame)

/-- Shared with the round-trip development: a built frame parses back to
exactly its payload. -/
theorem addData_build (p : List Nat) (h : p.length ≤ 65535) :
    addData [] (buildFrame p) = ([(buildFrame p, p)], []) := by
  unfold addData
  rw [List.nil_append]
  exact processBuffer_build p h

/-- C5: response injection.  The injected inner packet has the id drawn
from `randint(1, 0xFFFFFFFF)` (hence nonzero and 32-bit), broadcast
destination, the given channel (or the configured default), `want_ack`,
`hop_limit = 7`, text-application record kind, and body the UTF-8 encoding
of the first 200 characters of the text; the very same inner packet is
framed in a `ToRadio` envelope for the radio and in a `FromRadio` envelope
for the clients, and both frames parse back as single well-formed frames. -/
theorem send_ai_response_spec (pid channelIndex : Nat) (channel : Option Nat)
    (utf8Enc : List Char → List Nat)
    (serToRadio : ToRadioMsg → List Nat)
    (serFromRadio : FromRadioMsg → List Nat)
    (text : List Char)
    (hpid1 : 1 ≤ pid) (hpid2 : pid ≤ 0xFFFFFFFF)
    (hserTo : ∀ m, (serToRadio m).length ≤ 65535)
    (hserFrom : ∀ m, (serFromRadio m).length ≤ 65535) :
    let out := sendAIResponse pid channelIndex channel utf8Enc serToRadio
      serFromRadio text
    out.1.id = pid ∧ out.1.id ≠ 0 ∧ out.1.id < 2 ^ 32 ∧
    out.1.dest = 0xFFFFFFFF ∧
    out.1.channel = (match channel with | some c => c | none => channelIndex) ∧
    out.1.want_ack = true ∧ out.1.hop_limit = 7 ∧
    out.1.decoded.portnum = TEXT_MESSAGE_APP ∧
    out.1.decoded.payload = utf8Enc (text.take 200) ∧
    out.2.1 = buildFrame (serToRadio { packet := out.1 }) ∧
    out.2.2 = buildFrame (serFromRadio { packet := out.1 }) ∧
    addData [] out.2.1 = ([(out.2.1, serToRadio { packet := out.1 })], []) ∧
    addData [] out.2.2 = ([(out.2.2, serFromRadio { packet := out.1 })], []) := by
  have h32 : (0xFFFFFFFF : Nat) < 2 ^ 32 := by norm_num
  refine ⟨rfl, ?_, ?_, rfl, rfl, rfl, rfl, rfl, rfl, rfl, rfl, ?_, ?_⟩
  · show pid ≠ 0
    omega
  · show pid < 2 ^ 32
    omega
  · exact addData_build _ (hserTo _)
  · exact addData_build _ (hserFrom _)

theorem send_ai_response_spec_witness :
    ((1 : Nat) ≤ 1 ∧ (1 : Nat) ≤ 0xFFFFFFFF) ∧
    (let out := sendAIResponse 1 2 none (fun _ => []) (fun _ => [])
        (fun _ => []) "hi".data
     out.1.id = 1 ∧ out.1.id ≠ 0 ∧ out.1.id < 2 ^ 32 ∧
     out.1.dest = 0xFFFFFFFF ∧
     out.1.channel = 2 ∧
     out.1.want_ack = true ∧ out.1.hop_limit = 7 ∧
     out.1.decoded.portnum = TEXT_MESSAGE_APP ∧
     out.1.decoded.payload = [] ∧
     out.2.1 = buildFrame [] ∧ out.2.2 = buildFrame [] ∧
     addData [] out.2.1 = ([(out.2.1, [])], []) ∧
     addData [] out.2.2 = ([(out.2.2, [])], [])) :=
  ⟨⟨le_refl 1, by norm_num⟩,
    send_ai_response_spec 1 2 none (fun _ => []) (fun _ => []) (fun _ => [])
      "hi".data (le_refl 1) (by norm_num)
      (fun _ => Nat.zero_le _) (fun _ => Nat.zero_le _)⟩

end ResponseInjection

section RadioLink

/-- The pieces of `MultiClientProxy` state touched by the radio-link error
handling: whether `self.radio_writer` is set, the `radio_connected` ready
latch, and the number of spawned `reconnect_to_radio` tasks. -/
structure ProxyState where
  radioWriterPresent : Bool
  radioConnected : Bool
  reconnectTasks : Nat
deriving DecidableEq

/-- Model of `MultiClientProxy.send_to_radio` (lines 269–281): under the radio lock,
fail when no writer is set; otherwise write+drain (`writeOk` models whether
that raises) and return the success flag.  The exception handler only logs
and returns `False`; it touches neither the ready latch nor any task. -/
def sendToRadio (st : ProxyState) (writeOk : Bool) : Bool × ProxyState :=
  if !st.radioWriterPresent then (false, st)
  else if writeOk then (true, st)
  else (false, st)

/-- The EOF branch of `MultiClientProxy.radio_reader_task` (lines 554–558):
clear `radio_connected` and spawn a `reconnect_to_radio` task. -/
def radioReaderEofStep (st : ProxyState) : ProxyState :=
  { st with radioConnected := false, reconnectTasks := st.reconnectTasks + 1 }

/-- C8 counterexample: a failed write with the link up returns failure but
leaves the ready latch set and spawns no reconnect task — it does **not**
transition the link to Disconnected the way read-loop EOF does. -/
theorem send_to_radio_write_failure_counterexample :
    (sendToRadio ⟨true, true, 0⟩ false).1 = false ∧
    ¬ ((sendToRadio ⟨true, true, 0⟩ false).2.radioConnected = false ∧
        (sendToRadio ⟨true, true, 0⟩ false).2.reconnectTasks = 0 + 1) := by
  decide

/-- C8 (amended): a failed write inside `send_to_radio` only returns
`False` to its caller and leaves the proxy state unchanged — no latch
clear, no reconnect task — whereas the read-loop EOF path does clear the
latch and spawn a reconnect task. -/
theorem send_to_radio_write_failure (st : ProxyState) :
    (sendToRadio st false).1 = false ∧
    (sendToRadio st false).2 = st ∧
    (radioReaderEofStep st).radioConnected = false ∧
    (radioReaderEofStep st).reconnectTasks = st.reconnectTasks + 1 := by
  refine ⟨?_, ?_, rfl, rfl⟩ <;>
    · unfold sendToRadio
      cases st.radioWriterPresent <;> simp

end RadioLink

section BroadcastLock

/-- Lock-relevant events executed by `broadcast_to_clients`, in program
order: acquiring/releasing `clients_lock` and writing to a client socket. -/
inductive LockEvent where
  | acquire : LockEvent
  | write : Nat → LockEvent
  | release : LockEvent
deriving DecidableEq

/-- The exclusion test `if exclude_id and client_id == exclude_id` (line
256), with Python truthiness: `None` and `0` never exclude. -/
def excludedClient (excludeId : Option Nat) (cid : Nat) : Bool :=
  match excludeId with
  | some e => decide (e ≠ 0 ∧ cid = e)
  | none => false

/-- Model of `MultiClientProxy.broadcast_to_clients` (lines 251–267) as its trace of
lock events.  The whole loop body runs inside `async with self.clients_lock`:
every non-excluded client is written to under the lock, and any client whose
write failed is then removed via `_remove_client`, which re-acquires the
non-reentrant `clients_lock` — so on a failed write the trace ends at that
nested `acquire` (deadlock) and the `release` is never reached. -/
def broadcastTrace (clients : List (Nat × Bool)) (excludeId : Option Nat) :
    List LockEvent :=
  let written := clients.filter (fun c => !(excludedClient excludeId c.1))
  let disconnected := written.filter (fun c => !c.2)
  [LockEvent.acquire] ++ written.map (fun c => LockEvent.write c.1) ++
    (if disconnected.isEmpty then [LockEvent.release] else [LockEvent.acquire])

/-- Does the trace perform a socket write while the lock depth is
positive? -/
def writesUnderLock (tr : List LockEvent) : Bool :=
  (tr.foldl (fun acc e =>
    match e with
    | LockEvent.acquire => (acc.1 + 1, acc.2)
    | LockEvent.release => (acc.1 - 1, acc.2)
    | LockEvent.write _ => (acc.1, acc.2 || decide (0 < acc.1)))
    ((0, false) : Nat × Bool)).2

/-- C9: the registry lock **is** held across client writes.  With one
connected client and no exclusion, the write happens strictly between the
`acquire` and the `release`; and when a write fails, `_remove_client`
re-acquires the non-reentrant lock while it is still held (deadlock), so
the release is never even emitted.  This contradicts the snapshot-then-
release discipline the spec mandates. -/
theorem broadcast_holds_lock_across_write :
    writesUnderLock (broadcastTrace [(1, true)] none) = true ∧
    broadcastTrace [(1, true)] none =
      [LockEvent.acquire, LockEvent.write 1, LockEvent.release] ∧
    broadcastTrace [(1, false)] none =
      [LockEvent.acquire, LockEvent.write 1, LockEvent.acquire] := by
  decide

end BroadcastLock

end Meshbot
